/-
Verification of the status-polling and state-aggregation engine of
hub-ci-status.

The development shallowly embeds the relevant JavaScript modules:

* `src/index.js` (state aggregation): `stateBySeverity`, `getState`,
  `stateToExitCode`, `checkRunToStatus`.
* `src/lib/fetch-ci-status.js`: the domain `shouldRetry` predicate and the
  construction of the retry options object (modelled over an explicit heap
  to capture the object-copy semantics of the spread operator).
* `src/lib/retry-async.js`: the retry engine, modelled as a fuel-driven
  interpreter over an explicit loop state.  Time is modelled by an integer
  clock; the JavaScript value `Infinity` (used for unbounded deadlines) is
  modelled by the extended integer type `EInt`.

JavaScript numbers are modelled as `Int` (all quantities involved are
integral millisecond counts or array indices), strings as `String`, and
absent/undefined fields as `Option`.
-/
import Mathlib

namespace HubCiStatus

/-! ## State aggregation (`src/index.js`) -/

/-- Severity order used by `getState`, least to most severe
(`stateBySeverity` in `src/index.js`). -/
def stateBySeverity : List String :=
  [ "neutral",
    "success",
    "pending",
    "cancelled",
    "timed_out",
    "action_required",
    "failure",
    "error" ]

/-- JavaScript `Array.prototype.indexOf`: index of the first occurrence,
`-1` when absent. -/
def jsIndexOf : List String → String → Int
  | [], _ => -1
  | x :: xs, s =>
    if x = s then 0
    else
      let r := jsIndexOf xs s
      if r < 0 then -1 else r + 1

/-- A normalized status record, as produced by the combined-status API or by
`checkRunToStatus`. -/
structure StatusRecord where
  state : String
  context : String
  target_url : String
deriving DecidableEq, Repr

/-- A check run from the Checks API (the fields used by the program). -/
structure CheckRun where
  status : String
  conclusion : String
  name : String
  html_url : String
deriving DecidableEq, Repr

/-- `getState` from `src/index.js`: fold `Math.max` of severity indices over
the records starting from `-1`, then index into `stateBySeverity`
(out-of-range indexing yields `undefined`, and `undefined || ''` is `''`,
modelled by `List.getD` with default `""`). -/
def getState (statuses : List StatusRecord) : String :=
  let bestSeverity :=
    statuses.foldl
      (fun maxSeverity status =>
        max (jsIndexOf stateBySeverity status.state) maxSeverity)
      (-1)
  if bestSeverity < 0 then "" else stateBySeverity.getD bestSeverity.toNat ""

/-- `stateToExitCode` from `src/index.js` (same exit codes as hub ci-status). -/
def stateToExitCode (state : String) : Nat :=
  if state = "neutral" ∨ state = "success" then 0
  else if state = "action_required" ∨ state = "cancelled" ∨ state = "error"
      ∨ state = "failure" ∨ state = "timed_out" then 1
  else if state = "pending" then 2
  else 3

/-- `checkRunToStatus` from `src/index.js`: convert a check run to a status
record. -/
def checkRunToStatus (checkRun : CheckRun) : StatusRecord :=
  { state := if checkRun.status = "completed" then checkRun.conclusion
             else "pending",
    context := checkRun.name,
    target_url := checkRun.html_url }

/-! ## The fetcher's retry predicate (`src/lib/fetch-ci-status.js`) -/

/-- The status loop of `shouldRetry` in `src/lib/fetch-ci-status.js`:
returns `none` when the loop hits an early `return false` (a status that is
neither pending nor success, with `waitAll` false), otherwise `some` of the
final `statusWaitCount`. -/
def countStatusWaits (waitAll : Bool) : List StatusRecord → Option Nat
  | [] => some 0
  | status :: rest =>
    if status.state = "pending" then
      (countStatusWaits waitAll rest).map (· + 1)
    else if ¬waitAll ∧ status.state ≠ "success" then
      none
    else
      countStatusWaits waitAll rest

/-- The check-run loop of `shouldRetry` in `src/lib/fetch-ci-status.js`:
returns `none` on the early `return false` (a settled check run whose
conclusion is neither success nor neutral, with `waitAll` false), otherwise
`some` of the final `checkWaitCount`. -/
def countCheckWaits (waitAll : Bool) : List CheckRun → Option Nat
  | [] => some 0
  | checkRun :: rest =>
    if checkRun.status = "queued" ∨ checkRun.status = "in_progress" then
      (countCheckWaits waitAll rest).map (· + 1)
    else if ¬waitAll ∧ checkRun.conclusion ≠ "success"
        ∧ checkRun.conclusion ≠ "neutral" then
      none
    else
      countCheckWaits waitAll rest

/-- `shouldRetry` from `src/lib/fetch-ci-status.js`, over the pair of result
collections `[combinedStatus.statuses, checksList.check_runs]`. -/
def shouldRetry (waitAll : Bool) (statuses : List StatusRecord)
    (checkRuns : List CheckRun) : Bool :=
  match countStatusWaits waitAll statuses with
  | none => false
  | some statusWaitCount =>
    match countCheckWaits waitAll checkRuns with
    | none => false
    | some checkWaitCount =>
      statusWaitCount > 0 || checkWaitCount > 0
        || (statuses.length == 0 && checkRuns.length == 0)

/-! ## The retry engine (`src/lib/retry-async.js`)

`retryAsync` is an asynchronous loop.  It is embedded as a fuel-driven
deterministic interpreter: the operation's behaviour on its i-th invocation
(result, elapsed time, whether it rejects) is given by an `OpModel`, the
wait-duration iterator by a function `Nat → Option Int` (its i-th `next()`
call: `some` a value or `none` for `done`), and the clock advances by the
operation's elapsed time and by each sleep's delay (an ideal timer). -/

/-- A JavaScript number that may be `Infinity` (used for `maxTotalMs`,
the deadline, and `remaining`). -/
inductive EInt where
  | fin : Int → EInt
  | inf : EInt
deriving DecidableEq, Repr

/-- `e - n` for possibly-infinite `e` (`Infinity - n = Infinity`). -/
def EInt.subInt : EInt → Int → EInt
  | .fin m, n => .fin (m - n)
  | .inf, _ => .inf

/-- `e < n` for possibly-infinite `e` (`Infinity < n` is false). -/
def EInt.ltInt : EInt → Int → Bool
  | .fin m, n => m < n
  | .inf, _ => false

/-- `Math.min(n, e)` for possibly-infinite `e` (`Math.min(n, Infinity) = n`). -/
def EInt.minInt (n : Int) : EInt → Int
  | .fin m => min n m
  | .inf => n

/-- The elaborated retry configuration (destructured options of
`retryAsync`, with the wait iterator already constructed). -/
structure RetryCfg (R : Type) where
  maxTotalMs : EInt
  minWaitMs : Int
  shouldRetry : R → Bool
  /-- The wait iterator: result of the i-th `next()` call. -/
  waitSeq : Nat → Option Int
  /-- Whether the iterator object has a `return` method. -/
  hasReturn : Bool

/-- Deterministic model of the operation's behaviour: result, elapsed time
and rejection of its i-th invocation. -/
structure OpModel (R : Type) where
  result : Nat → R
  time : Nat → Int
  throws : Nat → Bool

/-- State carried across iterations of the retry loop: the clock, the number
of operation invocations, the number of `next()` calls on the wait iterator,
the delays passed to the sleep function so far, and the `done` flag of the
last `next()` result (`none` before the first `next()`). -/
structure LoopState where
  time : Int
  attempt : Nat
  nextIdx : Nat
  sleeps : List Int
  lastNext : Option Bool
deriving DecidableEq, Repr

/-- How the loop exited. -/
inductive ExitKind where
  /-- `shouldRetry(result)` was false. -/
  | noRetry
  /-- `remaining < minWaitMs`. -/
  | budget
  /-- The wait iterator's `next()` reported `done`. -/
  | exhausted
  /-- The operation threw. -/
  | threw
deriving DecidableEq, Repr

/-- Value produced by the loop. -/
inductive Outcome (R : Type) where
  | returned : R → Outcome R
  | threw : Outcome R
deriving DecidableEq, Repr

/-- Exit record: outcome, exit path, and final loop state. -/
structure ExitInfo (R : Type) where
  outcome : Outcome R
  kind : ExitKind
  final : LoopState
deriving DecidableEq, Repr

/-- The `finally` block of `retryAsync`: `waitIterator.return()` is called
iff a `next()` has been made, its last result was not `done`, and the
iterator has a `return` method. -/
def returnCalled {R : Type} (cfg : RetryCfg R) (e : ExitInfo R) : Bool :=
  cfg.hasReturn && e.final.lastNext == some false

/-- Result of one iteration of the `for (;;)` loop body. -/
inductive StepRes (R : Type) where
  | more : LoopState → StepRes R
  | exit : ExitInfo R → StepRes R

/-- One iteration of the retry loop of `retryAsync`
(`src/lib/retry-async.js` lines 95-116): invoke the operation (advancing
the clock by its elapsed time), test `shouldRetry`, test the remaining
budget, pull the next wait duration, and sleep for
`Math.min(waitResult.value, remaining)`. -/
def retryStep {R : Type} (cfg : RetryCfg R) (op : OpModel R)
    (deadline : EInt) (s : LoopState) : StepRes R :=
  let i := s.attempt
  let t1 := s.time + op.time i
  if op.throws i then
    .exit ⟨.threw, .threw, { s with time := t1, attempt := i + 1 }⟩
  else
    let result := op.result i
    let s1 : LoopState := { s with time := t1, attempt := i + 1 }
    if ¬cfg.shouldRetry result then
      .exit ⟨.returned result, .noRetry, s1⟩
    else
      let remaining := deadline.subInt t1
      if remaining.ltInt cfg.minWaitMs then
        .exit ⟨.returned result, .budget, s1⟩
      else
        match cfg.waitSeq s.nextIdx with
        | none =>
          .exit ⟨.returned result, .exhausted,
            { s1 with nextIdx := s.nextIdx + 1, lastNext := some true }⟩
        | some w =>
          let delay := EInt.minInt w remaining
          .more
            { time := t1 + delay,
              attempt := i + 1,
              nextIdx := s.nextIdx + 1,
              sleeps := s.sleeps ++ [delay],
              lastNext := some false }

/-- Iterate `retryStep` with fuel; `none` means the loop is still running
after `fuel` iterations. -/
def retryRun {R : Type} (cfg : RetryCfg R) (op : OpModel R)
    (deadline : EInt) : Nat → LoopState → Option (ExitInfo R)
  | 0, _ => none
  | fuel + 1, s =>
    match retryStep cfg op deadline s with
    | .more s1 => retryRun cfg op deadline fuel s1
    | .exit e => some e

/-- Entry of the retry loop: compute the deadline once from the clock
(`isFinite(maxTotalMs) ? now() + maxTotalMs : Infinity`) and run the loop
from the initial state. -/
def retryStart {R : Type} (cfg : RetryCfg R) (op : OpModel R)
    (t0 : Int) (fuel : Nat) : Option (ExitInfo R) :=
  let deadline : EInt :=
    match cfg.maxTotalMs with
    | .fin m => .fin (t0 + m)
    | .inf => .inf
  retryRun cfg op deadline fuel ⟨t0, 0, 0, [], none⟩

/-! ### Argument validation of `retryAsync` -/

/-- Modelled from the spec: the default exponential backoff sequence
`exponential(2, 4000, 60000, Infinity)` (its source module
`lib/retry-async/constant.js` / `lib/retry-async/exponential.js` is not in
the repository snapshot; §4.1 describes terms growing by the factor from
the initial duration, clamped to the cap, unbounded count). -/
def expWaitSeq : Nat → Option Int :=
  fun i => some (min (4000 * 2 ^ i) 60000)

/-- The `waitMs` option as supplied by the caller: a number, an iterable
(given by its iterator together with whether the iterator object has a
`return` method), or anything else (neither number nor iterable). -/
inductive WaitMsArg where
  | num : Int → WaitMsArg
  | iter : (Nat → Option Int) → Bool → WaitMsArg
  | invalid : WaitMsArg

/-- The fields of the options object of `retryAsync` that the engine
destructures (each `none` when absent, triggering the default).
The `now` and `setTimeout` options are the ambient clock and ideal sleep of
the interpreter and are not elaborated here. -/
structure RetryAsyncOptions (R : Type) where
  maxTotalMs : Option EInt := none
  minWaitMs : Option Int := none
  shouldRetry : Option (R → Bool) := none
  waitMs : Option WaitMsArg := none

/-- The options argument as supplied by the caller: absent, `null`, a
non-null primitive (e.g. a number), or an object. -/
inductive PolicyArg (R : Type) where
  | undef : PolicyArg R
  | null : PolicyArg R
  | prim : Int → PolicyArg R
  | obj : RetryAsyncOptions R → PolicyArg R

/-- JavaScript destructuring of the options parameter
(`{ ... } = {}`): an absent argument is defaulted to `{}`; destructuring
`null` throws a `TypeError`; destructuring a non-null primitive coerces it
to a wrapper object with no own properties, so every field falls back to
its default. -/
def PolicyArg.destructure {R : Type} : PolicyArg R → Option (RetryAsyncOptions R)
  | .undef => some {}
  | .null => none
  | .prim _ => some {}
  | .obj o => some o

/-- Observable outcome of a call to `retryAsync`: a `TypeError` raised by
argument handling (before any operation invocation and before any wait), or
a run of the retry loop. -/
inductive CallResult (R : Type) where
  | typeError : CallResult R
  | run : Option (ExitInfo R) → CallResult R
deriving DecidableEq

/-- `retryAsync` from `src/lib/retry-async.js` including its argument
handling.  `falsey` gives the JavaScript falsiness of a result (used by
`defaultShouldRetry`, which retries iff the result is falsey);
`opInvocable` states whether the `operation` argument is a callable value
(calling a non-callable throws `TypeError` at the first invocation site,
inside the loop but before any wait).  A numeric `waitMs` is wrapped via
the `constant` generator, which yields the number indefinitely and, being a
generator object, has a `return` method. -/
def retryAsync {R : Type} (falsey : R → Bool) (opInvocable : Bool)
    (op : OpModel R) (policy : PolicyArg R) (t0 : Int) (fuel : Nat) :
    CallResult R :=
  match policy.destructure with
  | none => .typeError
  | some o =>
    let maxTotalMs := o.maxTotalMs.getD .inf
    let minWaitMs := o.minWaitMs.getD 4000
    let shouldRetry := o.shouldRetry.getD (fun result => falsey result)
    let waitMs := o.waitMs.getD (.iter expWaitSeq true)
    match waitMs with
    | .invalid => .typeError
    | .num n =>
      if opInvocable then
        .run (retryStart ⟨maxTotalMs, minWaitMs, shouldRetry,
          fun _ => some n, true⟩ op t0 fuel)
      else .typeError
    | .iter s hasReturn =>
      if opInvocable then
        .run (retryStart ⟨maxTotalMs, minWaitMs, shouldRetry, s, hasReturn⟩
          op t0 fuel)
      else .typeError

/-! ## Retry-option preparation in `fetchCiStatus`
(`src/lib/fetch-ci-status.js` lines 79, 118-147)

To express that the caller's objects are not mutated, objects live in an
explicit heap: a list of objects addressed by index, each object an
association list of fields where a later binding overrides an earlier one
(so the spread `{ ...retry, shouldRetry }` is append).  Function values are
identified by numeric tags. -/

/-- A JavaScript value stored in an object field: a number, a function
(identified by a tag), or a reference to a heap object. -/
inductive JVal where
  | num : Int → JVal
  | fn : Nat → JVal
  | ref : Nat → JVal
deriving DecidableEq, Repr

/-- A JavaScript object: fields as an association list, later bindings
overriding earlier ones. -/
abbrev JObj : Type := List (String × JVal)

/-- Field lookup: the last binding of the key, if any. -/
def jsGet (o : JObj) (k : String) : Option JVal :=
  (List.find? (fun p => p.1 == k) (List.reverse o)).map (fun p => p.2)

/-- Field write / spread-override: append a binding. -/
def jsSet (o : JObj) (k : String) (v : JVal) : JObj :=
  o ++ [(k, v)]

/-- JavaScript truthiness of a possibly-absent value. -/
def truthy : Option JVal → Bool
  | none => false
  | some (.num n) => n != 0
  | some (.fn _) => true
  | some (.ref _) => true

/-- The heap: objects addressed by list index. -/
abbrev Heap : Type := List JObj

/-- The retry-option preparation of `fetchCiStatus`: build
`retryOptions = { ...retry, shouldRetry }` as a fresh object (spread of an
absent `retry` spreads nothing), and, when `options.debug` is truthy,
install the debug `setTimeout` wrapper on that fresh object
(`retryOptions.setTimeout = ...`).  `shouldRetryTag` and `wrapperTag`
identify the closures created by the call.  Returns the new heap and the
address of `retryOptions`. -/
def prepareRetryOptions (h : Heap) (optionsAddr : Nat)
    (shouldRetryTag wrapperTag : Nat) : Heap × Nat :=
  let options := List.getD h optionsAddr []
  let retryObj : JObj :=
    match jsGet options "retry" with
    | some (.ref a) => List.getD h a []
    | _ => []
  let retryOptions := jsSet retryObj "shouldRetry" (.fn shouldRetryTag)
  let freshAddr := List.length h
  let h1 := h ++ [retryOptions]
  let h2 :=
    if truthy (jsGet options "debug") then
      List.set h1 freshAddr (jsSet retryOptions "setTimeout" (.fn wrapperTag))
    else h1
  (h2, freshAddr)

/-! ## Theorems -/

/-! ### Helper lemmas -/

lemma countStatusWaits_none_of_bad {statuses : List StatusRecord}
    {s : StatusRecord} (hs : s ∈ statuses) (hp : s.state ≠ "pending")
    (hsu : s.state ≠ "success") :
    countStatusWaits false statuses = none := by
  induction statuses with
  | nil => cases hs
  | cons a rest ih =>
    rcases List.mem_cons.mp hs with rfl | hmem
    · simp [countStatusWaits, hp, hsu]
    · by_cases hpend : a.state = "pending"
      · simp [countStatusWaits, hpend, ih hmem]
      · by_cases hsucc : a.state = "success"
        · simp [countStatusWaits, hpend, hsucc, ih hmem]
        · simp [countStatusWaits, hpend, hsucc]

lemma countCheckWaits_none_of_bad {checkRuns : List CheckRun} {c : CheckRun}
    (hq : c.status ≠ "queued") (hip : c.status ≠ "in_progress")
    (hcs : c.conclusion ≠ "success") (hcn : c.conclusion ≠ "neutral")
    (hc : c ∈ checkRuns) :
    countCheckWaits false checkRuns = none := by
  induction checkRuns with
  | nil => cases hc
  | cons a rest ih =>
    rcases List.mem_cons.mp hc with rfl | hmem
    · simp [countCheckWaits, hq, hip, hcs, hcn]
    · by_cases hpend : a.status = "queued" ∨ a.status = "in_progress"
      · simp [countCheckWaits, hpend, ih hmem]
      · by_cases hok : a.conclusion = "success" ∨ a.conclusion = "neutral"
        · rcases hok with hok | hok <;>
            simp [countCheckWaits, hpend, hok, ih hmem]
        · push_neg at hok
          simp [countCheckWaits, hpend, hok.1, hok.2]

/-! ### C1: fail-fast under waitAll = false -/

/-- C1: with `waitAll` false, if any combined-status entry has a state that
is neither pending nor success, or any settled check run (status neither
queued nor in_progress) has a conclusion other than success or neutral,
`shouldRetry` returns false, regardless of the other entries. -/
theorem shouldRetry_fail_fast (statuses : List StatusRecord)
    (checkRuns : List CheckRun)
    (h : (∃ s ∈ statuses, s.state ≠ "pending" ∧ s.state ≠ "success")
      ∨ (∃ c ∈ checkRuns, c.status ≠ "queued" ∧ c.status ≠ "in_progress"
          ∧ c.conclusion ≠ "success" ∧ c.conclusion ≠ "neutral")) :
    shouldRetry false statuses checkRuns = false := by
  rcases h with ⟨s, hs, hp, hsu⟩ | ⟨c, hc, hq, hip, hcs, hcn⟩
  · unfold shouldRetry
    rw [countStatusWaits_none_of_bad hs hp hsu]
  · unfold shouldRetry
    rw [countCheckWaits_none_of_bad hq hip hcs hcn hc]
    cases countStatusWaits false statuses <;> simp

/-- Witness for C1: one pending combined status plus one failed check run
does not retry. -/
theorem shouldRetry_fail_fast_witness :
    shouldRetry false [⟨"pending", "ci/a", ""⟩]
      [⟨"completed", "failure", "build", ""⟩] = false :=
  shouldRetry_fail_fast _ _ (by decide)

/-! ### C2: empty collections always retry -/

/-- C2: when both the combined-status list and the check-run list are empty,
`shouldRetry` returns true for both values of `waitAll`. -/
theorem shouldRetry_empty_retries (waitAll : Bool) :
    shouldRetry waitAll [] [] = true := by
  cases waitAll <;> rfl

/-! ### C3: severity maximum and permutation invariance of getState -/

lemma foldl_sev_init_le (l : List StatusRecord) (i : Int) :
    i ≤ l.foldl (fun m st => max (jsIndexOf stateBySeverity st.state) m) i := by
  induction l generalizing i with
  | nil => exact le_refl i
  | cons a rest ih =>
    exact le_trans (le_max_right _ i) (ih _)

lemma foldl_sev_mem_le {l : List StatusRecord} {st : StatusRecord}
    (h : st ∈ l) (i : Int) :
    jsIndexOf stateBySeverity st.state
      ≤ l.foldl (fun m st => max (jsIndexOf stateBySeverity st.state) m) i := by
  induction l generalizing i with
  | nil => cases h
  | cons a rest ih =>
    rcases List.mem_cons.mp h with rfl | hmem
    · exact le_trans (le_max_left _ i) (foldl_sev_init_le rest _)
    · exact ih hmem _

lemma foldl_sev_le {l : List StatusRecord} {B i : Int} (hi : i ≤ B)
    (h : ∀ st ∈ l, jsIndexOf stateBySeverity st.state ≤ B) :
    l.foldl (fun m st => max (jsIndexOf stateBySeverity st.state) m) i ≤ B := by
  induction l generalizing i with
  | nil => exact hi
  | cons a rest ih =>
    exact ih (max_le (h a (List.mem_cons_self a rest)) hi)
      (fun st hst => h st (List.mem_cons_of_mem a hst))

lemma foldl_sev_perm {l1 l2 : List StatusRecord} (p : l1.Perm l2) (i : Int) :
    l1.foldl (fun m st => max (jsIndexOf stateBySeverity st.state) m) i
      = l2.foldl (fun m st => max (jsIndexOf stateBySeverity st.state) m) i := by
  induction p generalizing i with
  | nil => rfl
  | cons x _ ih => exact ih _
  | swap x y l =>
    show List.foldl _ (max _ (max _ i)) l = List.foldl _ (max _ (max _ i)) l
    rw [max_left_comm]
  | trans _ _ ih1 ih2 => exact (ih1 i).trans (ih2 i)

lemma mem_stateBySeverity_getD {b : String} (hb : b ∈ stateBySeverity) :
    0 ≤ jsIndexOf stateBySeverity b
      ∧ stateBySeverity.getD (jsIndexOf stateBySeverity b).toNat "" = b := by
  fin_cases hb <;> decide

/-- C3: for states `a`, `b` of the severity vocabulary with `b` strictly
more severe, a record list drawn from `{a, b}` containing `b` yields
`getState` = `b`; and `getState` is invariant under permutation of the
record list. -/
theorem getState_severity_and_perm :
    (∀ (a b : String) (l : List StatusRecord),
      a ∈ stateBySeverity → b ∈ stateBySeverity →
      jsIndexOf stateBySeverity a < jsIndexOf stateBySeverity b →
      (∀ r ∈ l, r.state = a ∨ r.state = b) →
      (∃ r ∈ l, r.state = b) →
      getState l = b)
  ∧ (∀ l1 l2 : List StatusRecord, l1.Perm l2 → getState l1 = getState l2) := by
  constructor
  · intro a b l _ hb hab hstates hbmem
    obtain ⟨rb, hrb, hrbstate⟩ := hbmem
    obtain ⟨hb0, hbget⟩ := mem_stateBySeverity_getD hb
    have hlower : jsIndexOf stateBySeverity b
        ≤ l.foldl (fun m st => max (jsIndexOf stateBySeverity st.state) m) (-1) := by
      have := foldl_sev_mem_le hrb (-1)
      rwa [hrbstate] at this
    have hupper : l.foldl
        (fun m st => max (jsIndexOf stateBySeverity st.state) m) (-1)
        ≤ jsIndexOf stateBySeverity b := by
      refine foldl_sev_le (by omega) ?_
      intro st hst
      rcases hstates st hst with h | h
      · rw [h]; exact le_of_lt hab
      · rw [h]
    have hbest : l.foldl
        (fun m st => max (jsIndexOf stateBySeverity st.state) m) (-1)
        = jsIndexOf stateBySeverity b := le_antisymm hupper hlower
    unfold getState
    rw [hbest, if_neg (by omega), hbget]
  · intro l1 l2 p
    unfold getState
    rw [foldl_sev_perm p]

/-- Witness for C3: failure dominates success, in either input order. -/
theorem getState_severity_and_perm_witness :
    getState [⟨"failure", "a", ""⟩, ⟨"success", "b", ""⟩] = "failure"
  ∧ getState [⟨"success", "b", ""⟩, ⟨"failure", "a", ""⟩]
      = getState [⟨"failure", "a", ""⟩, ⟨"success", "b", ""⟩] :=
  ⟨getState_severity_and_perm.1 "success" "failure" _ (by decide) (by decide)
      (by decide) (by decide) (by decide),
    getState_severity_and_perm.2 _ _ (by decide)⟩

/-! ### C7: check-run conversion -/

/-- C7: `checkRunToStatus` yields state pending whenever the check run is
not completed (whatever its conclusion), the conclusion value when
completed, the name as context, and the html_url as target URL. -/
theorem checkRunToStatus_spec (c : CheckRun) :
    (c.status ≠ "completed" → (checkRunToStatus c).state = "pending")
  ∧ (c.status = "completed" → (checkRunToStatus c).state = c.conclusion)
  ∧ (checkRunToStatus c).context = c.name
  ∧ (checkRunToStatus c).target_url = c.html_url := by
  refine ⟨fun h => ?_, fun h => ?_, rfl, rfl⟩ <;> simp [checkRunToStatus, h]

/-- Witness for C7: an in-progress check run with a (spurious) conclusion
maps to pending; a completed one maps to its conclusion. -/
theorem checkRunToStatus_spec_witness :
    (checkRunToStatus ⟨"in_progress", "failure", "build", "u"⟩).state
      = "pending"
  ∧ (checkRunToStatus ⟨"completed", "success", "build", "u"⟩).state
      = "success" :=
  ⟨(checkRunToStatus_spec ⟨"in_progress", "failure", "build", "u"⟩).1
      (by decide),
    (checkRunToStatus_spec ⟨"completed", "success", "build", "u"⟩).2.1 rfl⟩

/-! ### C8: empty state and exit codes -/

/-- C8: `getState []` is the empty string, and `stateToExitCode` maps
neutral/success to 0, the failure-class states to 1, pending to 2, and
every other string (the empty string included) to 3. -/
theorem getState_empty_and_exit_codes :
    getState [] = ""
  ∧ stateToExitCode "neutral" = 0
  ∧ stateToExitCode "success" = 0
  ∧ stateToExitCode "cancelled" = 1
  ∧ stateToExitCode "timed_out" = 1
  ∧ stateToExitCode "action_required" = 1
  ∧ stateToExitCode "failure" = 1
  ∧ stateToExitCode "error" = 1
  ∧ stateToExitCode "pending" = 2
  ∧ ∀ s : String, s ≠ "neutral" → s ≠ "success" → s ≠ "cancelled" →
      s ≠ "timed_out" → s ≠ "action_required" → s ≠ "failure" →
      s ≠ "error" → s ≠ "pending" → stateToExitCode s = 3 := by
  refine ⟨by decide, by decide, by decide, by decide, by decide, by decide,
    by decide, by decide, by decide, ?_⟩
  intro s h1 h2 h3 h4 h5 h6 h7 h8
  simp [stateToExitCode, h1, h2, h3, h4, h5, h6, h7, h8]

/-- Witness for C8: the empty string maps to exit code 3. -/
theorem getState_empty_and_exit_codes_witness : stateToExitCode "" = 3 :=
  getState_empty_and_exit_codes.2.2.2.2.2.2.2.2.2 "" (by decide) (by decide)
    (by decide) (by decide) (by decide) (by decide) (by decide) (by decide)

/-! ### C4: budget-exhaustion exit -/

/-- C4: whenever `shouldRetry` holds of an attempt's result but the
remaining budget is below `minWaitMs`, the loop iteration exits with that
result, with no further operation invocation and no sleep; in particular
with a finite `maxTotalMs` below `minWaitMs` (and a non-negative operation
duration) the whole run makes exactly one operation call and never sleeps. -/
theorem retryAsync_budget_exit :
    (∀ (R : Type) (cfg : RetryCfg R) (op : OpModel R) (d : EInt)
      (s : LoopState),
      op.throws s.attempt = false →
      cfg.shouldRetry (op.result s.attempt) = true →
      (d.subInt (s.time + op.time s.attempt)).ltInt cfg.minWaitMs = true →
      retryStep cfg op d s
        = .exit ⟨.returned (op.result s.attempt), .budget,
            { s with time := s.time + op.time s.attempt,
                     attempt := s.attempt + 1 }⟩)
  ∧ (∀ (R : Type) (cfg : RetryCfg R) (op : OpModel R) (t0 M : Int)
      (fuel : Nat),
      cfg.maxTotalMs = .fin M → M < cfg.minWaitMs → 0 ≤ op.time 0 →
      op.throws 0 = false →
      retryStart cfg op t0 (fuel + 1)
        = some ⟨.returned (op.result 0),
            if cfg.shouldRetry (op.result 0) then .budget else .noRetry,
            ⟨t0 + op.time 0, 1, 0, [], none⟩⟩) := by
  constructor
  · intro R cfg op d s hthrow hretry hlt
    simp [retryStep, hthrow, hretry, hlt]
  · intro R cfg op t0 M fuel hmax hM htime hthrow
    unfold retryStart
    rw [hmax, retryRun]
    by_cases hretry : cfg.shouldRetry (op.result 0)
    · have hlt : (EInt.subInt (.fin (t0 + M)) (t0 + op.time 0)).ltInt
          cfg.minWaitMs = true := by
        simp only [EInt.subInt, EInt.ltInt, decide_eq_true_eq]
        omega
      simp [retryStep, hthrow, hretry, hlt]
    · simp [retryStep, hthrow, hretry]

/-- Witness for C4: with `maxTotalMs = 3` and `minWaitMs = 4000`, a run of
an always-retry operation makes exactly one call and never sleeps. -/
theorem retryAsync_budget_exit_witness :
    retryStart ⟨.fin 3, 4000, fun _ => true, fun _ => some 1000, true⟩
      ⟨fun _ => (0 : Int), fun _ => 0, fun _ => false⟩ 0 5
      = some ⟨.returned 0, .budget, ⟨0, 1, 0, [], none⟩⟩ := by
  have h := retryAsync_budget_exit.2 Int
    ⟨.fin 3, 4000, fun _ => true, fun _ => some 1000, true⟩
    ⟨fun _ => (0 : Int), fun _ => 0, fun _ => false⟩ 0 3 4
    rfl (by decide) (by decide) rfl
  simpa using h

lemma retryRun_more {R : Type} {cfg : RetryCfg R} {op : OpModel R} {d : EInt}
    {s s1 : LoopState} (h : retryStep cfg op d s = .more s1) (fuel : Nat) :
    retryRun cfg op d (fuel + 1) s = retryRun cfg op d fuel s1 := by
  rw [retryRun, h]

lemma retryRun_exit {R : Type} {cfg : RetryCfg R} {op : OpModel R} {d : EInt}
    {s : LoopState} {e : ExitInfo R} (h : retryStep cfg op d s = .exit e)
    (fuel : Nat) :
    retryRun cfg op d (fuel + 1) s = some e := by
  rw [retryRun, h]

/-! ### C5: waits are clamped to the remaining budget -/

/-- C5: every iteration that reaches a wait sleeps for exactly
`min(nextWaitValue, remaining)`, so with a finite deadline the clock after
the sleep never exceeds the deadline; in particular, with budget `M`,
`0 < minWaitMs = m ≤ M`, a zero-duration always-retried operation and a
constant wait `w > M`, the run sleeps exactly once, for exactly `M`, before
the final attempt. -/
theorem retryAsync_wait_clamped :
    (∀ (R : Type) (cfg : RetryCfg R) (op : OpModel R) (deadline : EInt)
      (s s1 : LoopState) (w : Int),
      cfg.waitSeq s.nextIdx = some w →
      retryStep cfg op deadline s = .more s1 →
      s1.sleeps = s.sleeps
        ++ [EInt.minInt w (deadline.subInt (s.time + op.time s.attempt))]
      ∧ ∀ d : Int, deadline = .fin d → s1.time ≤ d)
  ∧ (∀ (R : Type) (res : Nat → R) (t0 M m w : Int),
      0 < m → m ≤ M → M < w →
      retryStart ⟨.fin M, m, fun _ => true, fun _ => some w, true⟩
        ⟨res, fun _ => 0, fun _ => false⟩ t0 2
        = some ⟨.returned (res 1), .budget, ⟨t0 + M, 2, 1, [M], some false⟩⟩) := by
  constructor
  · intro R cfg op deadline s s1 w hw hstep
    simp only [retryStep, hw] at hstep
    by_cases hthrow : op.throws s.attempt = true
    · simp [hthrow] at hstep
    · simp only [Bool.not_eq_true] at hthrow
      simp only [hthrow, Bool.false_eq_true, if_false] at hstep
      by_cases hretry : cfg.shouldRetry (op.result s.attempt) = true
      · simp only [hretry, not_true, if_false] at hstep
        by_cases hlt : (deadline.subInt
            (s.time + op.time s.attempt)).ltInt cfg.minWaitMs = true
        · simp [hlt] at hstep
        · simp only [Bool.not_eq_true] at hlt
          simp only [hlt, Bool.false_eq_true, if_false] at hstep
          cases hstep
          refine ⟨rfl, ?_⟩
          intro d hd
          subst hd
          simp only [EInt.subInt, EInt.minInt, LoopState.mk.injEq]
          have := min_le_right w (d - (s.time + op.time s.attempt))
          omega
      · simp [hretry] at hstep
  · intro R res t0 M m w hm hmM hMw
    have hstep1 : retryStep ⟨.fin M, m, fun _ => true, fun _ => some w, true⟩
        ⟨res, fun _ => 0, fun _ => false⟩ (.fin (t0 + M))
        ⟨t0, 0, 0, [], none⟩
        = .more ⟨t0 + M, 1, 1, [M], some false⟩ := by
      have hlt : ((EInt.fin (t0 + M)).subInt t0).ltInt m = false := by
        simp only [EInt.subInt, EInt.ltInt, decide_eq_false_iff_not]
        omega
      have hmin : EInt.minInt w ((EInt.fin (t0 + M)).subInt t0) = M := by
        simp only [EInt.subInt, EInt.minInt]
        omega
      simp [retryStep, hlt, hmin]
    have hstep2 : retryStep ⟨.fin M, m, fun _ => true, fun _ => some w, true⟩
        ⟨res, fun _ => 0, fun _ => false⟩ (.fin (t0 + M))
        ⟨t0 + M, 1, 1, [M], some false⟩
        = .exit ⟨.returned (res 1), .budget, ⟨t0 + M, 2, 1, [M], some false⟩⟩ := by
      have hlt : ((EInt.fin (t0 + M)).subInt (t0 + M)).ltInt m = true := by
        simp only [EInt.subInt, EInt.ltInt, decide_eq_true_eq]
        omega
      simp [retryStep, hlt]
    simp only [retryStart]
    rw [retryRun_more hstep1 1, retryRun_exit hstep2 0]

/-- Witness for C5: budget 10, minimum wait 4, constant wait 20: the run
sleeps exactly 10 before the final attempt. -/
theorem retryAsync_wait_clamped_witness :
    retryStart ⟨.fin 10, 4, fun _ => true, fun _ => some 20, true⟩
      ⟨fun _ => (0 : Int), fun _ => 0, fun _ => false⟩ 0 2
      = some ⟨.returned 0, .budget, ⟨0 + 10, 2, 1, [10], some false⟩⟩ :=
  retryAsync_wait_clamped.2 Int (fun _ => (0 : Int)) 0 10 4 20
    (by decide) (by decide) (by decide)

/-! ### C6: the wait iterator's early-termination handle -/

lemma retryStep_more_inv {R : Type} {cfg : RetryCfg R} {op : OpModel R}
    {d : EInt} {s s1 : LoopState} (h : retryStep cfg op d s = .more s1) :
    s1.lastNext = some false ∧ 0 < s1.nextIdx := by
  simp only [retryStep] at h
  by_cases hthrow : op.throws s.attempt = true
  · simp [hthrow] at h
  · simp only [Bool.not_eq_true] at hthrow
    simp only [hthrow, Bool.false_eq_true, if_false] at h
    by_cases hretry : cfg.shouldRetry (op.result s.attempt) = true
    · simp only [hretry, not_true, if_false] at h
      by_cases hlt : (d.subInt (s.time + op.time s.attempt)).ltInt
          cfg.minWaitMs = true
      · simp [hlt] at h
      · simp only [Bool.not_eq_true] at hlt
        simp only [hlt, Bool.false_eq_true, if_false] at h
        rcases hw : cfg.waitSeq s.nextIdx with _ | w
        · rw [hw] at h
          simp at h
        · rw [hw] at h
          simp only [StepRes.more.injEq] at h
          rw [← h]
          simp
    · simp [hretry] at h

lemma retryStep_exit_inv {R : Type} {cfg : RetryCfg R} {op : OpModel R}
    {d : EInt} {s : LoopState} {ex : ExitInfo R}
    (hInv1 : s.lastNext = some false ↔ 0 < s.nextIdx)
    (h : retryStep cfg op d s = .exit ex) :
    ex.final.lastNext = some false
      ↔ (0 < ex.final.nextIdx ∧ ex.kind ≠ ExitKind.exhausted) := by
  simp only [retryStep] at h
  by_cases hthrow : op.throws s.attempt = true
  · simp only [hthrow, if_true] at h
    simp only [StepRes.exit.injEq] at h
    rw [← h]
    simpa using hInv1
  · simp only [Bool.not_eq_true] at hthrow
    simp only [hthrow, Bool.false_eq_true, if_false] at h
    by_cases hretry : cfg.shouldRetry (op.result s.attempt) = true
    · simp only [hretry, not_true, if_false] at h
      by_cases hlt : (d.subInt (s.time + op.time s.attempt)).ltInt
          cfg.minWaitMs = true
      · simp only [hlt, if_true] at h
        simp only [StepRes.exit.injEq] at h
        rw [← h]
        simpa using hInv1
      · simp only [Bool.not_eq_true] at hlt
        simp only [hlt, Bool.false_eq_true, if_false] at h
        rcases hw : cfg.waitSeq s.nextIdx with _ | w
        · rw [hw] at h
          simp only [StepRes.exit.injEq] at h
          rw [← h]
          simp
        · rw [hw] at h
          simp at h
    · rw [if_pos hretry] at h
      cases h
      simpa using hInv1

lemma retryRun_inv {R : Type} {cfg : RetryCfg R} {op : OpModel R} {d : EInt} :
    ∀ {fuel : Nat} {s : LoopState} {e : ExitInfo R},
    (s.lastNext = some false ↔ 0 < s.nextIdx) →
    retryRun cfg op d fuel s = some e →
    (e.final.lastNext = some false
      ↔ (0 < e.final.nextIdx ∧ e.kind ≠ ExitKind.exhausted)) := by
  intro fuel
  induction fuel with
  | zero => intro s e _ h; cases h
  | succ fuel ih =>
    intro s e hInv1 h
    rw [retryRun] at h
    cases hstep : retryStep cfg op d s with
    | more s1 =>
      rw [hstep] at h
      obtain ⟨h1, h2⟩ := retryStep_more_inv hstep
      exact ih (by simp [h1, h2]) h
    | exit ex =>
      rw [hstep] at h
      cases h
      exact retryStep_exit_inv hInv1 hstep

/-- C6: in every terminating run of the retry engine whose wait iterator has
a `return` method, the `finally` block invokes `return()` exactly when the
engine exits after a `next()` call whose result was not `done` (that is,
at least one `next()` was made and the exit was not the natural-exhaustion
exit); it is never invoked after a final `next()` that reported `done`,
nor when the engine exits before any `next()` call. -/
theorem retryAsync_return_called {R : Type} (cfg : RetryCfg R)
    (op : OpModel R) (t0 : Int) (fuel : Nat) (e : ExitInfo R)
    (hret : cfg.hasReturn = true)
    (hrun : retryStart cfg op t0 fuel = some e) :
    returnCalled cfg e = true
      ↔ (0 < e.final.nextIdx ∧ e.kind ≠ ExitKind.exhausted) := by
  simp only [retryStart] at hrun
  have key := retryRun_inv (by simp) hrun
  simpa [returnCalled, hret] using key

/-- Witness for C6: an always-retrying run that exits on the budget after
three waits has its iterator released. -/
theorem retryAsync_return_called_witness :
    returnCalled
      (⟨.fin 10, 4, fun _ => true, fun _ => some 3, true⟩ : RetryCfg Int)
      ⟨.returned 0, .budget, ⟨9, 4, 3, [3, 3, 3], some false⟩⟩ = true :=
  (retryAsync_return_called ⟨.fin 10, 4, fun _ => true, fun _ => some 3, true⟩
    ⟨fun _ => (0 : Int), fun _ => 0, fun _ => false⟩ 0 4
    ⟨.returned 0, .budget, ⟨9, 4, 3, [3, 3, 3], some false⟩⟩
    rfl (by decide)).mpr (by decide)

/-! ### C9: argument validation of retryAsync -/

/-- Counterexample to C9 as stated: a policy argument that is a non-null,
non-object primitive (the number 42) does not make `retryAsync` fail with a
`TypeError`; destructuring a primitive yields no own properties, so all
options default and the call completes normally. -/
theorem retryAsync_prim_policy_counterexample :
    retryAsync (fun b : Bool => !b) true
      ⟨fun _ => true, fun _ => 0, fun _ => false⟩ (.prim 42) 0 1
      = .run (some ⟨.returned true, .noRetry, ⟨0, 1, 0, [], none⟩⟩)
  ∧ retryAsync (fun b : Bool => !b) true
      ⟨fun _ => true, fun _ => 0, fun _ => false⟩ (.prim 42) 0 1
      ≠ .typeError := by
  constructor <;> decide

/-- C9 (amended): `retryAsync` fails with a `TypeError` when the operation
is not invocable, when the provided options argument is `null` (but a
non-null primitive is accepted, with every option defaulted), or when the
effective `waitMs` is neither a number nor an iterable; in each case
without invoking the operation and without waiting. -/
theorem retryAsync_typeerror {R : Type} (falsey : R → Bool)
    (opInvocable : Bool) (op : OpModel R) (policy : PolicyArg R)
    (t0 : Int) (fuel : Nat)
    (h : policy = .null
      ∨ ((policy.destructure.getD {}).waitMs.getD (.iter expWaitSeq true))
          = .invalid
      ∨ opInvocable = false) :
    retryAsync falsey opInvocable op policy t0 fuel = .typeError := by
  rcases h with rfl | hw | hop
  · rfl
  · unfold retryAsync
    cases hd : policy.destructure with
    | none => rfl
    | some o =>
      rw [hd] at hw
      simp only [Option.getD_some] at hw
      simp only [hw]
  · unfold retryAsync
    cases hd : policy.destructure with
    | none => rfl
    | some o =>
      subst hop
      split <;> simp
      split <;> rfl

/-- Witness for C9 (amended): a non-invocable operation yields `TypeError`. -/
theorem retryAsync_typeerror_witness :
    retryAsync (fun b : Bool => !b) false
      ⟨fun _ => true, fun _ => 0, fun _ => false⟩ .undef 0 1 = .typeError :=
  retryAsync_typeerror (fun b : Bool => !b) false
    ⟨fun _ => true, fun _ => 0, fun _ => false⟩ .undef 0 1
    (Or.inr (Or.inr rfl))

/-! ### C10: fetchCiStatus does not mutate the caller's options -/

lemma jsGet_jsSet_same (o : JObj) (k : String) (v : JVal) :
    jsGet (jsSet o k v) k = some v := by
  simp [jsGet, jsSet, List.reverse_append]

lemma jsGet_jsSet_ne (o : JObj) {k k' : String} (v : JVal) (h : k' ≠ k) :
    jsGet (jsSet o k v) k' = jsGet o k' := by
  simp [jsGet, jsSet, List.reverse_append, List.find?, beq_eq_false_iff_ne,
    Ne.symm h]

/-- C10: preparing the retry options in `fetchCiStatus` leaves every
existing heap object (in particular the caller's options object and its
`retry` sub-object) unchanged; the domain `shouldRetry` predicate, and when
`debug` is truthy the logging `setTimeout` wrapper, are installed only on
the freshly allocated copy. -/
theorem fetchCiStatus_options_frame (h : Heap) (optionsAddr : Nat)
    (shouldRetryTag wrapperTag : Nat) :
    (∀ a : Nat, a < List.length h →
      List.get? (prepareRetryOptions h optionsAddr shouldRetryTag
        wrapperTag).1 a = List.get? h a)
  ∧ (prepareRetryOptions h optionsAddr shouldRetryTag wrapperTag).2
      = List.length h
  ∧ jsGet (List.getD (prepareRetryOptions h optionsAddr shouldRetryTag
        wrapperTag).1 (List.length h) []) "shouldRetry"
      = some (.fn shouldRetryTag)
  ∧ (truthy (jsGet (List.getD h optionsAddr []) "debug") = true →
      jsGet (List.getD (prepareRetryOptions h optionsAddr shouldRetryTag
        wrapperTag).1 (List.length h) []) "setTimeout"
        = some (.fn wrapperTag)) := by
  simp only [prepareRetryOptions]
  refine ⟨?_, trivial, ?_, ?_⟩
  · intro a ha
    by_cases hdbg : truthy (jsGet (List.getD h optionsAddr []) "debug") = true
    · rw [if_pos hdbg, List.get?_set_ne _ _ (Nat.ne_of_gt ha),
        List.get?_append ha]
    · rw [if_neg hdbg, List.get?_append ha]
  · by_cases hdbg : truthy (jsGet (List.getD h optionsAddr []) "debug") = true
    · rw [if_pos hdbg, List.getD_eq_get?,
        List.get?_set_eq_of_lt _ (by simp), Option.getD_some,
        jsGet_jsSet_ne _ _ (by decide), jsGet_jsSet_same]
    · rw [if_neg hdbg, List.getD_eq_get?, List.get?_concat_length,
        Option.getD_some, jsGet_jsSet_same]
  · intro hdbg
    rw [if_pos hdbg, List.getD_eq_get?, List.get?_set_eq_of_lt _ (by simp),
      Option.getD_some, jsGet_jsSet_same]

/-- Witness for C10: for a caller options object (address 0) with a `retry`
sub-object (address 1) and a debug function, preparation leaves the
sub-object unchanged and installs the wrapper on the fresh copy. -/
theorem fetchCiStatus_options_frame_witness :
    List.get? (prepareRetryOptions
        [[("retry", JVal.ref 1), ("debug", JVal.fn 7)],
          [("minWaitMs", JVal.num 1000)]] 0 10 11).1 1
      = List.get? [[("retry", JVal.ref 1), ("debug", JVal.fn 7)],
          [("minWaitMs", JVal.num 1000)]] 1
  ∧ jsGet (List.getD (prepareRetryOptions
        [[("retry", JVal.ref 1), ("debug", JVal.fn 7)],
          [("minWaitMs", JVal.num 1000)]] 0 10 11).1 2 []) "setTimeout"
      = some (.fn 11) :=
  ⟨(fetchCiStatus_options_frame _ 0 10 11).1 1 (by decide),
    (fetchCiStatus_options_frame _ 0 10 11).2.2.2 (by decide)⟩

end HubCiStatus
